import Mathlib

/-
Verification development for the OmniScore compiler
(src/services/omniParser.ts, with types and constants from src/App.tsx).

The TypeScript parser is embedded shallowly:

* JavaScript numbers are modelled by `Q`, an exact rational type whose
  operations are kernel-computable (a fuel-based Euclid gcd replaces the
  well-founded `Nat.gcd`).  Floating-point rounding, `NaN` and `Infinity`
  are outside this model: `parseInt`/`parseFloat`/`Number` are modelled as
  `Option`-valued (with `none` for `NaN`), and the two places where the
  source divides by a possibly-zero number (`4 / parseInt(...)` in
  `parseDurationVal`, `Q.div` by zero) are modelled as 0 with an explicit
  comment at the definition.
* Strings are `List Char` (`Tok`); the regular expressions of the source
  are implemented character by character, following the JS semantics of
  the concrete regexes (documented at each definition).
* The mutable parser object becomes an explicit state `ParserSt`; every
  `while` loop of the source becomes a fuel-indexed function returning
  `Option ParserSt`, `none` meaning the fuel ran out.  Loops of the
  source that are bounded in the source are bounded here too (any large
  enough fuel gives `some`); the unbounded loops of the source
  (`parseGroup`, the `[`-value accumulation in `parseMetaBlock`) return
  `none` for every fuel on the inputs where the source diverges.
-/

/- ## Kernel-computable rationals -/

/-- Euclid's algorithm with explicit fuel, so that the kernel can reduce it
on literals.  `gcdFuel f a b` equals `Nat.gcd a b` whenever `a ≤ f`. -/
def gcdFuel : Nat → Nat → Nat → Nat
  | 0, _, b => b
  | f+1, a, b =>
    match a with
    | 0 => b
    | a'+1 => gcdFuel f (b % (a'+1)) (a'+1)

/-- Gcd via `gcdFuel` with sufficient fuel. -/
def natGcd (a b : Nat) : Nat := gcdFuel (a+1) a b

theorem gcdFuel_eq : ∀ (f a b : Nat), a ≤ f → gcdFuel f a b = Nat.gcd a b := by
  intro f
  induction f with
  | zero => intro a b h; interval_cases a; simp [gcdFuel]
  | succ f ih =>
    intro a b h
    match a with
    | 0 => simp [gcdFuel]
    | a'+1 =>
      have h2 : b % (a'+1) ≤ f := by
        have := Nat.mod_lt b (show 0 < a'+1 by omega)
        omega
      rw [gcdFuel, ih _ _ h2]
      exact (Nat.gcd_rec (a'+1) b).symm

theorem natGcd_eq (a b : Nat) : natGcd a b = Nat.gcd a b :=
  gcdFuel_eq _ _ _ (Nat.le_succ a)

/-- Exact rational numbers with a positive denominator, the model of the
JS `number`s the parser computes with (ticks, durations, velocities). -/
structure Q where
  num : Int
  den : Int
  dpos : 0 < den

/-- Construct the reduced fraction `n / d` for `0 < d`. -/
def qmk (n d : Int) (h : 0 < d) : Q :=
  let g : Nat := natGcd n.natAbs d.toNat
  have hd : 0 < d.toNat := by omega
  have hg : 0 < g := by
    have : 0 < Nat.gcd n.natAbs d.toNat := Nat.gcd_pos_of_pos_right n.natAbs hd
    simpa [g, natGcd_eq] using this
  have hdvd : g ∣ d.toNat := by
    have := Nat.gcd_dvd_right n.natAbs d.toNat
    simpa [g, natGcd_eq] using this
  { num := if n < 0 then -(((n.natAbs / g : Nat) : Int)) else ((n.natAbs / g : Nat) : Int)
    den := ((d.toNat / g : Nat) : Int)
    dpos := by
      have : 0 < d.toNat / g := Nat.div_pos (Nat.le_of_dvd hd hdvd) hg
      omega }

instance : DecidableEq Q := fun a b =>
  if h : a.num = b.num ∧ a.den = b.den then
    isTrue (by cases a; cases b; simp_all)
  else
    isFalse (by intro he; cases he; simp_all)

def Q.ofInt (n : Int) : Q := ⟨n, 1, Int.one_pos⟩

def Q.add (a b : Q) : Q :=
  qmk (a.num * b.den + b.num * a.den) (a.den * b.den) (mul_pos a.dpos b.dpos)

def Q.mul (a b : Q) : Q :=
  qmk (a.num * b.num) (a.den * b.den) (mul_pos a.dpos b.dpos)

/-- Division.  In JS, division by `0` yields `Infinity`/`NaN`; those values
are outside the rational model and are represented by `0` here (the one
place the parser can divide by zero is `parseDurationVal` on malformed
duration text). -/
def Q.div (a b : Q) : Q :=
  if h : 0 < b.num then qmk (a.num * b.den) (a.den * b.num) (mul_pos a.dpos h)
  else if h2 : b.num < 0 then
    qmk (-(a.num * b.den)) (a.den * (-b.num)) (mul_pos a.dpos (by omega))
  else Q.ofInt 0

/-- Numeric order on `Q`, the model of the JS `<=` used (via the
`a.tickStart - b.tickStart` comparator) to sort the timeline. -/
def Q.le (a b : Q) : Prop := a.num * b.den ≤ b.num * a.den

instance (a b : Q) : Decidable (Q.le a b) := by
  unfold Q.le; infer_instance

theorem Q.le_total (a b : Q) : Q.le a b ∨ Q.le b a := by
  unfold Q.le; omega

theorem Q.le_trans {a b c : Q} (h1 : Q.le a b) (h2 : Q.le b c) : Q.le a c := by
  unfold Q.le at *
  have hb := b.dpos
  have h1' := mul_le_mul_of_nonneg_right h1 (le_of_lt c.dpos)
  have h2' := mul_le_mul_of_nonneg_right h2 (le_of_lt a.dpos)
  have : a.num * c.den * b.den ≤ c.num * a.den * b.den := by nlinarith
  exact le_of_mul_le_mul_right this hb

/- ## Strings and the JS string operations used by the parser -/

/-- Tokens and strings are lists of characters. -/
abbrev Tok := List Char

def isWsChar (c : Char) : Bool :=
  c = ' ' || c = '\t' || c = '\n' || c = '\r' || c = '\x0b' || c = '\x0c'

def isDigitChar (c : Char) : Bool := '0' ≤ c && c ≤ '9'

def isAlphaChar (c : Char) : Bool := ('a' ≤ c && c ≤ 'z') || ('A' ≤ c && c ≤ 'Z')

/-- ASCII lower-casing, the model of `String.prototype.toLowerCase` on the
ASCII tokens the parser compares (non-ASCII case mapping is not modelled). -/
def lowerChar (c : Char) : Char :=
  if 'A' ≤ c && c ≤ 'Z' then Char.ofNat (c.toNat + 32) else c

def lowerTok (t : Tok) : Tok := t.map lowerChar

/-- `str.split(sep)` for a single-character separator (JS semantics:
`"".split` is `[""]`, separators at the ends produce empty pieces). -/
def splitOnChar (sep : Char) : Tok → List Tok
  | [] => [[]]
  | c :: r =>
    if c = sep then [] :: splitOnChar sep r
    else
      match splitOnChar sep r with
      | [] => [[c]]
      | t :: ts => (c :: t) :: ts

/-- `str.replace(c, '')` for a single character: removes the first
occurrence only. -/
def removeFirstChar (x : Char) : Tok → Tok
  | [] => []
  | c :: r => if c = x then r else c :: removeFirstChar x r

def containsChar (x : Char) (t : Tok) : Bool := t.any (· = x)

def startsWithChar (x : Char) : Tok → Bool
  | [] => false
  | c :: _ => c = x

def endsWithChar (x : Char) (t : Tok) : Bool :=
  match t.getLast? with
  | some c => c = x
  | none => false

/-- `String.prototype.trim` (whitespace from both ends). -/
def trimTok (t : Tok) : Tok :=
  ((t.dropWhile (fun c => isWsChar c)).reverse.dropWhile (fun c => isWsChar c)).reverse

def digitsToNat (ds : Tok) : Nat :=
  ds.foldl (fun acc c => acc * 10 + (c.toNat - 48)) 0

/-- `parseInt(str, 10)`-style parsing: skip leading whitespace, optional
sign, then the longest digit prefix; `none` models `NaN` (no digits).
The `0x` hexadecimal autodetection of radix-less `parseInt` is not
modelled (no claim depends on it). -/
def jsParseInt (t : Tok) : Option Int :=
  let t1 := t.dropWhile (fun c => isWsChar c)
  let (sgn, t2) : Int × Tok :=
    match t1 with
    | '-' :: r => (-1, r)
    | '+' :: r => (1, r)
    | r => (1, r)
  let ds := t2.takeWhile (fun c => isDigitChar c)
  if ds = [] then none else some (sgn * (digitsToNat ds : Int))

/-- `parseFloat(str)`: sign, digits, optional fractional part; `none`
models `NaN`.  Exponents are not modelled (no claim depends on them). -/
def jsParseFloat (t : Tok) : Option Q :=
  let t1 := t.dropWhile (fun c => isWsChar c)
  let (neg, t2) : Bool × Tok :=
    match t1 with
    | '-' :: r => (true, r)
    | '+' :: r => (false, r)
    | r => (false, r)
  let ds := t2.takeWhile (fun c => isDigitChar c)
  let t3 := t2.drop ds.length
  let fs :=
    match t3 with
    | '.' :: r => r.takeWhile (fun c => isDigitChar c)
    | _ => []
  if ds = [] && fs = [] then none
  else
    let mag := (Q.ofInt (digitsToNat ds : Int)).add
      ((Q.ofInt (digitsToNat fs : Int)).div (Q.ofInt ((10 : Int) ^ fs.length)))
    some (if neg then (Q.ofInt 0).add ((Q.ofInt (-1)).mul mag) else mag)

/-- `Number(str)`: trims, the empty string is `0`, otherwise the whole
string must be `[sign] digits [. digits]` (or `.digits`); `none` models
`NaN`.  Hex and exponent forms are not modelled. -/
def jsNumber (t : Tok) : Option Q :=
  let t1 := trimTok t
  if t1 = [] then some (Q.ofInt 0)
  else
    let (neg, t2) : Bool × Tok :=
      match t1 with
      | '-' :: r => (true, r)
      | '+' :: r => (false, r)
      | r => (false, r)
    let ds := t2.takeWhile (fun c => isDigitChar c)
    let t3 := t2.drop ds.length
    let (fs, t4) : Tok × Tok :=
      match t3 with
      | '.' :: r => (r.takeWhile (fun c => isDigitChar c), r.drop (r.takeWhile (fun c => isDigitChar c)).length)
      | _ => ([], t3)
    if ds = [] && fs = [] then none
    else if t4 ≠ [] then none
    else
      let mag := (Q.ofInt (digitsToNat ds : Int)).add
        ((Q.ofInt (digitsToNat fs : Int)).div (Q.ofInt ((10 : Int) ^ fs.length)))
      some (if neg then (Q.ofInt (-1)).mul mag else mag)

/-- `tokens.join(' ')` (used when a macro body is stored). -/
def joinSpace : List Tok → Tok
  | [] => []
  | [t] => t
  | t :: ts => t ++ ' ' :: joinSpace ts

/- ## Lexer (REGEX_TOKEN) and comment stripping -/

/-- Single-character punctuation class of `REGEX_TOKEN`:
`([{}|,\[\]=():])`. -/
def isPunctChar (c : Char) : Bool :=
  c = '{' || c = '}' || c = '|' || c = ',' || c = '[' || c = ']' ||
  c = '=' || c = '(' || c = ')' || c = ':'

/-- Generic-run class of `REGEX_TOKEN`: `[a-zA-Z0-9_.\-+#]`. -/
def isRunChar (c : Char) : Bool :=
  isAlphaChar c || isDigitChar c || c = '_' || c = '.' || c = '-' || c = '+' || c = '#'

/-- First character after `$` in a macro reference: `[a-zA-Z_]`. -/
def isIdentStartChar (c : Char) : Bool := isAlphaChar c || c = '_'

/-- Later characters of a macro reference: `[a-zA-Z0-9_]`. -/
def isIdentChar (c : Char) : Bool := isAlphaChar c || isDigitChar c || c = '_'

/-- Split at the first `"`; `none` when there is no closing quote
(the JS regex then fails at the opening quote, which is skipped). -/
def splitAtQuote : List Char → Option (List Char × List Char)
  | [] => none
  | '"' :: r => some ([], r)
  | c :: r =>
    match splitAtQuote r with
    | some (a, b) => some (c :: a, b)
    | none => none

/-- Longest prefix of generic-run characters, with the rest. -/
def spanRun : List Char → List Char × List Char
  | [] => ([], [])
  | c :: r =>
    if isRunChar c then
      match spanRun r with
      | (a, b) => (c :: a, b)
    else ([], c :: r)

/-- Longest prefix of identifier characters, with the rest. -/
def spanIdent : List Char → List Char × List Char
  | [] => ([], [])
  | c :: r =>
    if isIdentChar c then
      match spanIdent r with
      | (a, b) => (c :: a, b)
    else ([], c :: r)

/-- One step of `source.match(REGEX_TOKEN)`, fuel-indexed (each step
consumes at least one character, so `length + 1` fuel always suffices).
Alternatives in the priority order of the regex: punctuation, quoted
string (quotes kept in the token), `$`-reference, generic run; any other
character is skipped. -/
def tokenizeAux : Nat → List Char → List Tok
  | 0, _ => []
  | _, [] => []
  | f+1, c :: rest =>
    if isPunctChar c then [c] :: tokenizeAux f rest
    else if c = '"' then
      match splitAtQuote rest with
      | some (content, r2) => ('"' :: (content ++ ['"'])) :: tokenizeAux f r2
      | none => tokenizeAux f rest
    else if c = '$' then
      match rest with
      | d :: r2 =>
        if isIdentStartChar d then
          match spanIdent r2 with
          | (run, r3) => ('$' :: d :: run) :: tokenizeAux f r3
        else tokenizeAux f rest
      | [] => []
    else if isRunChar c then
      match spanRun rest with
      | (run, r2) => (c :: run) :: tokenizeAux f r2
    else tokenizeAux f rest

/-- `cleanCode.match(REGEX_TOKEN) || []`. -/
def tokenize (src : List Char) : List Tok := tokenizeAux (src.length + 1) src

/-- `source.replace(/%%.*$/gm, '')`: drop from `%%` to the end of each
line (newlines are kept).  The `Bool` is the inside-a-comment flag. -/
def stripCommentsAux : Bool → List Char → List Char
  | _, [] => []
  | true, '\n' :: r => '\n' :: stripCommentsAux false r
  | true, _ :: r => stripCommentsAux true r
  | false, '%' :: '%' :: r => stripCommentsAux true r
  | false, c :: r => c :: stripCommentsAux false r

def stripComments (src : List Char) : List Char := stripCommentsAux false src

/- ## The two splitting regexes of parseEvent -/

/-- `token.split(/(?<!:[\d])\./)`: split at `.`, except when the two
preceding characters (in the original string) are `:` followed by a
digit.  `p2`/`p1` are the characters two back and one back. -/
def attrSplitAux (p2 p1 : Option Char) : List Char → List (List Char)
  | [] => [[]]
  | c :: r =>
    let protected2 : Bool :=
      match p2, p1 with
      | some x, some y => x = ':' && isDigitChar y
      | _, _ => false
    if c = '.' && !protected2 then [] :: attrSplitAux p1 (some c) r
    else
      match attrSplitAux p1 (some c) r with
      | [] => [[c]]
      | t :: ts => (c :: t) :: ts

def attrSplit (t : Tok) : List Tok := attrSplitAux none none t

/-- Maximal non-whitespace runs of a string, in order. -/
def wsWordsAux (cur : Tok) : List Char → List Tok
  | [] => if cur = [] then [] else [cur.reverse]
  | c :: r =>
    if isWsChar c then
      if cur = [] then wsWordsAux [] r else cur.reverse :: wsWordsAux [] r
    else wsWordsAux (c :: cur) r

/-- `str.split(/\s+/)` (JS): the pieces between maximal whitespace runs,
with an empty leading piece when the string starts with whitespace, an
empty trailing piece when it ends with whitespace, and `[""]` for the
empty string. -/
def splitWsRuns (t : Tok) : List Tok :=
  match t with
  | [] => [[]]
  | c :: _ =>
    (if isWsChar c then [([] : Tok)] else []) ++
    wsWordsAux [] t ++
    (if endsWithCharWs t then [([] : Tok)] else [])
where
  endsWithCharWs (t : Tok) : Bool :=
    match t.getLast? with
    | some c => isWsChar c
    | none => false

/- ## Data model (src/App.tsx types and constants) -/

/-- `DrumMapValue = number | [number, number]` (`[position, midi]`). -/
inductive DrumMapValue where
  | plain : Int → DrumMapValue
  | pair : Int → Int → DrumMapValue
deriving DecidableEq

/-- `GM_DRUM_MAP` from src/App.tsx. -/
def GM_DRUM_MAP : List (Tok × DrumMapValue) :=
  [("k".toList, .plain 36), ("s".toList, .plain 38), ("ss".toList, .plain 37),
   ("h".toList, .plain 42), ("ho".toList, .plain 46), ("ph".toList, .plain 44),
   ("c".toList, .plain 49), ("r".toList, .plain 51), ("rb".toList, .plain 53),
   ("t1".toList, .plain 50), ("t2".toList, .plain 47), ("t3".toList, .plain 43)]

/-- `GUITAR_STD_TUNING` from src/App.tsx. -/
def GUITAR_STD_TUNING : List Tok :=
  ["E2".toList, "A2".toList, "D3".toList, "G3".toList, "B3".toList, "E4".toList]

/-- `TICKS_PER_QUARTER = 1920`. -/
def TICKS_PER_QUARTER : Q := Q.ofInt 1920

structure OmniMeta where
  title : Tok
  composer : Tok
  tempo : Option Int
  timeSignature : Int × Int
  key : Tok
  style : Tok
deriving DecidableEq

/-- Modifier `{ name, args }`; each argument is a string or a number. -/
structure Attribute where
  name : Tok
  args : List (Tok ⊕ Q)
deriving DecidableEq

inductive EvKind where
  | note | rest | chord
deriving DecidableEq

/-- `NoteEvent`.  A pitch entry `some m` models the string `"midi:" + m`;
`none` models `"midi:NaN"` (reachable only in tab style with a
non-numeric fret). -/
structure NoteEvent where
  type : EvKind
  pitches : List (Option Int)
  duration : Q
  tickStart : Q
  tickEnd : Q
  velocity : Q
  instrumentId : Tok
  voiceId : Tok
  modifiers : List Attribute
deriving DecidableEq

/-- `InstrumentDef`.  `style` is kept as the raw string because the source
assigns `v as StaffStyle` unchecked and only ever compares it with
`'tab'` and `'grid'`. -/
structure InstrumentDef where
  id : Tok
  label : Tok
  group : Option Tok
  style : Tok
  clef : Option Tok
  transpose : Option Int
  tuning : Option (List Tok)
  map : Option (List (Tok × DrumMapValue))
  patch : Option Tok
  vol : Option Q
  pan : Option Q
deriving DecidableEq

structure VoiceCursor where
  octave : Int
  duration : Q
  tick : Q
deriving DecidableEq

structure MacroDef where
  params : List Tok
  body : Tok
deriving DecidableEq

structure CompiledScore where
  meta : OmniMeta
  instruments : List InstrumentDef
  timeline : List NoteEvent
  durationTicks : Q
deriving DecidableEq

/- ## Association lists (JS object field access/assignment by key) -/

def getA {α : Type} (k : Tok) : List (Tok × α) → Option α
  | [] => none
  | (k', v) :: r => if k' = k then some v else getA k r

def setA {α : Type} (k : Tok) (v : α) : List (Tok × α) → List (Tok × α)
  | [] => [(k, v)]
  | (k', v') :: r => if k' = k then (k, v) :: r else (k', v') :: setA k v r

/- ## Pitch grammar (REGEX_PITCH) and parsePitchToMidi -/

/-- The accidental alternatives of `REGEX_PITCH`, in the order the regex
tries them: `qs|qf|tqs|tqf|x|bb|b|#|n`. -/
def accAlternatives : List Tok :=
  ["qs".toList, "qf".toList, "tqs".toList, "tqf".toList, "x".toList,
   "bb".toList, "b".toList, "#".toList, "n".toList]

/-- Case-insensitive prefix test (the regex carries the `i` flag). -/
def matchCaseless (pat : Tok) (s : Tok) : Bool :=
  lowerTok (s.take pat.length) = pat

/-- First alternative matching at the front of `s`; returns the matched
slice in its original case (JS keeps the original text in the capture)
and the rest. -/
def firstAccAlt (s : Tok) : Option (Tok × Tok) :=
  match accAlternatives.find? (fun pat => matchCaseless pat s) with
  | some pat => some (s.take pat.length, s.drop pat.length)
  | none => none

/-- Greedy iteration of the accidental group, keeping the last match (a
JS repeated capture group holds its final iteration).  Greedy matching
followed by the octave check below is equivalent to the backtracking
regex because no alternative contains a digit or `-`, so giving back an
iteration can never make the `(-?\d+)?$` tail match. -/
def accLoopAux : Nat → Option Tok → Tok → Option Tok × Tok
  | 0, last, s => (last, s)
  | f+1, last, s =>
    match firstAccAlt s with
    | some (m, rest) => accLoopAux f (some m) rest
    | none => (last, s)

/-- The `(-?\d+)?$` tail: `some none` for the empty rest, `some (some n)`
for a well-formed octave, `none` when the whole regex fails. -/
def octPart (s : Tok) : Option (Option Int) :=
  match s with
  | [] => some none
  | '-' :: ds =>
    if ds ≠ [] && ds.all (fun c => isDigitChar c) then
      some (some (-(digitsToNat ds : Int)))
    else none
  | ds =>
    if ds.all (fun c => isDigitChar c) then some (some (digitsToNat ds : Int))
    else none

/-- `pitch.match(REGEX_PITCH)`: the lower-cased step letter, the last
accidental (original case, `[]` when absent) and the explicit octave. -/
def pitchRegexMatch (p : Tok) : Option (Char × Tok × Option Int) :=
  match p with
  | [] => none
  | c :: rest =>
    let cl := lowerChar c
    if 'a' ≤ cl && cl ≤ 'g' then
      match accLoopAux (rest.length + 1) none rest with
      | (accLast, rem) =>
        match octPart rem with
        | some oct => some (cl, accLast.getD [], oct)
        | none => none
    else none

/-- `c=0 d=2 e=4 f=5 g=7 a=9 b=11`. -/
def baseSemitone (c : Char) : Int :=
  if c = 'c' then 0 else if c = 'd' then 2 else if c = 'e' then 4
  else if c = 'f' then 5 else if c = 'g' then 7 else if c = 'a' then 9
  else 11

/-- `parsePitchToMidi`: on regex failure the nominal `{midi: 60, octave: 4}`;
otherwise `(octave+1)*12 + semitone`.  The accidental comparisons are
case-sensitive in the source (`acc === '#'` etc.) although the regex is
case-insensitive, and only `#`, `b`, `x`, `bb` adjust the semitone. -/
def parsePitchToMidi (pitch : Tok) (lastOctave : Int) : Int × Int :=
  match pitchRegexMatch pitch with
  | none => (60, 4)
  | some (step, acc, octOpt) =>
    let octave := octOpt.getD lastOctave
    let s0 := baseSemitone step
    let s1 := if acc = "#".toList then s0 + 1 else s0
    let s2 := if acc = "b".toList then s1 - 1 else s1
    let s3 := if acc = "x".toList then s2 + 2 else s2
    let s4 := if acc = "bb".toList then s3 - 2 else s3
    ((octave + 1) * 12 + s4, octave)

/-- `parseDurationVal`: count the dots, strip them, `base = 4/parseInt`,
one dot multiplies by 1.5, two dots by 1.75.  On malformed text JS gets
`NaN`/`Infinity` here (`4/NaN`, `4/0`); both are modelled as 0. -/
def parseDurationVal (s : Tok) : Q :=
  let dotCount := s.countP (fun c => c = '.')
  let clean := s.filter (fun c => c ≠ '.')
  let base : Q :=
    match jsParseInt clean with
    | some n => (Q.ofInt 4).div (Q.ofInt n)
    | none => Q.ofInt 0
  let v1 := if dotCount = 1 then base.mul ⟨3, 2, by omega⟩ else base
  if dotCount = 2 then v1.mul ⟨7, 4, by omega⟩ else v1

/- ## Parser state (the mutable fields of class OmniParser) -/

structure ParserSt where
  tokens : List Tok
  tokenIndex : Nat
  meta : OmniMeta
  instruments : List InstrumentDef
  timeline : List NoteEvent
  macros : List (Tok × MacroDef)
  currentGroup : Option Tok
  globalCursors : List (Tok × List (Tok × VoiceCursor))
deriving DecidableEq

/-- `this.peek()`: the token at the cursor, `""` past the end. -/
def peekT (st : ParserSt) : Tok := st.tokens.getD st.tokenIndex []

/-- `this.consume()`: the token at the cursor (or `""`), cursor advanced
unconditionally (the source increments even past the end). -/
def consumeT (st : ParserSt) : Tok × ParserSt :=
  (peekT st, {st with tokenIndex := st.tokenIndex + 1})

def consume1 (st : ParserSt) : ParserSt := (consumeT st).2

/-- `this.match(val)`. -/
def matchT (v : Tok) (st : ParserSt) : Bool × ParserSt :=
  if peekT st = v then (true, consume1 st) else (false, st)

/-- Read `this.globalCursors[instId][voiceId]`. -/
def getCursor (st : ParserSt) (instId voiceId : Tok) : Option VoiceCursor :=
  match getA instId st.globalCursors with
  | some inner => getA voiceId inner
  | none => none

/-- Write `this.globalCursors[instId][voiceId] = c`. -/
def setCursor (instId voiceId : Tok) (c : VoiceCursor)
    (gc : List (Tok × List (Tok × VoiceCursor))) : List (Tok × List (Tok × VoiceCursor)) :=
  setA instId (setA voiceId c ((getA instId gc).getD [])) gc

/- ## resolvePitch and parseEvent -/

/-- `resolvePitch`: appends resolved pitches to the event, and (standard
style only) updates the cursor's sticky octave.  In tab style a fret of
`NaN` still pushes `midi:NaN` (modelled `none`); an out-of-range or
`NaN` string index reads `undefined` from the tuning and pushes nothing.
In grid style a mapped value that is the number `0` would be skipped by
the JS falsiness test `if (mapped)`; the built-in map has no zeros. -/
def resolvePitch (p : Tok) (inst : InstrumentDef) (cursor : VoiceCursor)
    (event : NoteEvent) : NoteEvent × VoiceCursor :=
  if inst.style = "tab".toList then
    let parts := splitOnChar '-' p
    if parts.length = 2 then
      let fretQ := jsParseInt (parts.getD 0 [])
      let strQ := jsParseInt (parts.getD 1 [])
      let tuning := inst.tuning.getD GUITAR_STD_TUNING
      match strQ with
      | some sN =>
        let idx : Int := (tuning.length : Int) - sN
        match (if 0 ≤ idx then tuning.get? idx.toNat else none) with
        | some stringPitch =>
          let midi0 := (parsePitchToMidi stringPitch 4).1
          match fretQ with
          | some fr => ({event with pitches := event.pitches ++ [some (midi0 + fr)]}, cursor)
          | none => ({event with pitches := event.pitches ++ [none]}, cursor)
        | none => (event, cursor)
      | none => (event, cursor)
    else (event, cursor)
  else if inst.style = "grid".toList then
    let mp := inst.map.getD GM_DRUM_MAP
    match getA p mp with
    | some (.plain n) =>
      if n = 0 then (event, cursor)
      else ({event with pitches := event.pitches ++ [some n]}, cursor)
    | some (.pair _ m) => ({event with pitches := event.pitches ++ [some m]}, cursor)
    | none => (event, cursor)
  else
    let r := parsePitchToMidi p cursor.octave
    ({event with pitches := event.pitches ++ [some r.1]}, {cursor with octave := r.2})

/-- One `.modifier` string to an `Attribute` (`name(arg1,arg2)` or bare
name); `replace(')','')` removes only the first `)`, and each argument
is a number exactly when `Number(arg)` is not `NaN`. -/
def parseAttrStr (s : Tok) : Attribute :=
  if containsChar '(' s then
    let ps := splitOnChar '(' s
    let args := (splitOnChar ',' (removeFirstChar ')' (ps.getD 1 []))).map
      (fun a => match jsNumber a with
        | some q => Sum.inr q
        | none => Sum.inl a)
    ⟨ps.getD 0 [], args⟩
  else ⟨s, []⟩

/-- The pitch-dispatch of `parseEvent` (source lines 387-398): `r`/`s`
are rests, a leading `[` makes a chord resolving each inner token, any
other pitch text resolves directly. -/
def resolveEventPitches (pitchStr : Tok) (inst : InstrumentDef) (cursor1 : VoiceCursor)
    (ev1 : NoteEvent) : NoteEvent × VoiceCursor :=
  if pitchStr = "r".toList then ({ev1 with type := .rest}, cursor1)
  else if pitchStr = "s".toList then ({ev1 with type := .rest}, cursor1)
  else if startsWithChar '[' pitchStr then
    let inner := pitchStr.filter (fun c => c ≠ '[' ∧ c ≠ ']')
    let pToks := splitWsRuns inner
    pToks.foldl (fun (pc : NoteEvent × VoiceCursor) t => resolvePitch t inst pc.2 pc.1)
      ({ev1 with type := .chord}, cursor1)
  else resolvePitch pitchStr inst cursor1 ev1

/-- The `vol`/`vel` override of `parseEvent` (source lines 400-404): the
first modifier named `vol` or `vel` overrides the velocity when its
first argument is a number. -/
def applyVolOverride (attributes : List Attribute) (e : NoteEvent) : NoteEvent :=
  match attributes.find? (fun a => a.name = "vol".toList ∨ a.name = "vel".toList) with
  | some a =>
    match a.args.head? with
    | some (Sum.inr q) => {e with velocity := q.div (Q.ofInt 127)}
    | _ => e
  | none => e

/-- The event-construction part of `parseEvent` (everything between the
cursor read and the `timeline.push`): returns the finished event, the
updated cursor, and the tick advance handed to `onAdvance` (0 for grace
events). -/
def buildEvent (token : Tok) (inst : InstrumentDef) (voiceId : Tok)
    (baseTick relativeTick : Q) (cursor : VoiceCursor) : NoteEvent × VoiceCursor × Q :=
  let parts := attrSplit token
  let core := parts.getD 0 []
  let attributes := (parts.drop 1).map parseAttrStr
  let durSplit := splitOnChar ':' core
  let pitchStr := durSplit.getD 0 []
  let durStr : Option Tok :=
    match durSplit.get? 1 with
    | some d => if d = [] then none else some d
    | none => none
  let cursor1 :=
    match durStr with
    | some d => {cursor with duration := parseDurationVal d}
    | none => cursor
  let ticks := cursor1.duration.mul TICKS_PER_QUARTER
  let ev0 : NoteEvent :=
    { type := .note, pitches := [], duration := cursor1.duration,
      tickStart := baseTick.add relativeTick,
      tickEnd := (baseTick.add relativeTick).add ticks,
      velocity := ⟨4, 5, by omega⟩,
      instrumentId := inst.id, voiceId := voiceId, modifiers := attributes }
  let isGrace := attributes.any (fun a => a.name = "grace".toList)
  let ev1 := if isGrace then {ev0 with duration := Q.ofInt 0, tickEnd := ev0.tickStart} else ev0
  let resolved := resolveEventPitches pitchStr inst cursor1 ev1
  (applyVolOverride attributes resolved.1, resolved.2, if isGrace then Q.ofInt 0 else ticks)

/-- `parseEvent`.  Returns the new state and the tick advance handed to
`onAdvance` (0 for the punctuation-token early return and for grace
events).  The cursor writes (sticky duration, sticky octave) are written
back to `globalCursors` at the end, which matches the in-place mutation
of the source; the `getD` default cursor is unreachable from the call
sites, which create the cursor first (lines 280-282/288-291 of the
source). -/
def parseEvent (token : Tok) (inst : InstrumentDef) (voiceId : Tok)
    (baseTick relativeTick : Q) (st : ParserSt) : ParserSt × Q :=
  if token = "|".toList ∨ token = "\x7b".toList ∨ token = "\x7d".toList ∨ token = "]".toList then
    (st, Q.ofInt 0)
  else
    let cursor := (getCursor st inst.id voiceId).getD ⟨4, Q.ofInt 1, Q.ofInt 0⟩
    let bev := buildEvent token inst voiceId baseTick relativeTick cursor
    ({st with timeline := st.timeline ++ [bev.1],
              globalCursors := setCursor inst.id voiceId bev.2.1 st.globalCursors},
     bev.2.2)

/- ## Macro invocation (handleMacro) -/

def isWordChar (c : Char) : Bool := isIdentChar c

/-- Drop `pat` from the front of `s` when it is a prefix. -/
def stripLead : Tok → Tok → Option Tok
  | [], s => some s
  | _, [] => none
  | p :: ps, c :: cs => if p = c then stripLead ps cs else none

/-- `body.replace(new RegExp('\\$' + p + '\\b', 'g'), arg)`: replace each
literal `$p` that ends at a word boundary.  Parameter names containing
regex metacharacters (reachable only through quoted signature tokens,
which can never be invoked) are treated literally. -/
def replaceParamAux (pname arg : Tok) : Nat → Tok → Tok
  | 0, s => s
  | _, [] => []
  | f+1, c :: r =>
    if c = '$' then
      match stripLead pname r with
      | some rest =>
        let lastC := pname.getLastD '$'
        let nextWord : Bool :=
          match rest with
          | c2 :: _ => isWordChar c2
          | [] => false
        if isWordChar lastC != nextWord then arg ++ replaceParamAux pname arg f rest
        else c :: replaceParamAux pname arg f r
      | none => c :: replaceParamAux pname arg f r
    else c :: replaceParamAux pname arg f r

def replaceParam (pname arg body : Tok) : Tok :=
  replaceParamAux pname arg (body.length + 1) body

/-- `handleMacro`: parse `$Name(arg1,...)`, look the name up (unknown
names are a no-op), substitute parameters positionally (`args[i] || ''`),
re-tokenize the body and feed every token to `parseEvent` — each with
`relativeTick` 0 (source line 334), while the advances accumulate into
the caller's tick counter.  Returns the state and the accumulated
advance. -/
def handleMacroRef (token : Tok) (inst : InstrumentDef) (voiceId : Tok)
    (baseTick : Q) (st : ParserSt) : ParserSt × Q :=
  let name0 := token.drop 1
  let nameArgs : Tok × List Tok :=
    if containsChar '(' name0 then
      let ps := splitOnChar '(' name0
      (ps.getD 0 [], splitOnChar ',' (removeFirstChar ')' (ps.getD 1 [])))
    else (name0, [])
  match getA nameArgs.1 st.macros with
  | none => (st, Q.ofInt 0)
  | some md =>
    let body := md.params.enum.foldl
      (fun b pi => replaceParam pi.2 (nameArgs.2.getD pi.1 []) b) md.body
    let macroToks := tokenize body
    macroToks.foldl
      (fun (acc : ParserSt × Q) t =>
        let r := parseEvent t inst voiceId baseTick (Q.ofInt 0) acc.1
        (r.1, acc.2.add r.2))
      (st, Q.ofInt 0)

/- ## Voice streams (parseVoiceStream) -/

/-- `parseVoiceStream`: consume tokens until the terminator (`|`), a `}`
or the end; `]` is skipped, `$` tokens expand macros, everything else is
an event.  `cur` is the local relative-tick counter. -/
def parseVoiceStream : Nat → InstrumentDef → Tok → Q → Tok → Q → ParserSt → Option ParserSt
  | 0, _, _, _, _, _, _ => none
  | f+1, inst, vid, base, term, cur, st =>
    if peekT st ≠ term ∧ peekT st ≠ "\x7d".toList ∧ st.tokenIndex < st.tokens.length then
      let tk := consumeT st
      if tk.1 = "]".toList then parseVoiceStream f inst vid base term cur tk.2
      else if startsWithChar '$' tk.1 then
        let r := handleMacroRef tk.1 inst vid base tk.2
        parseVoiceStream f inst vid base term (cur.add r.2) r.1
      else
        let r := parseEvent tk.1 inst vid base cur tk.2
        parseVoiceStream f inst vid base term (cur.add r.2) r.1
    else some st

/- ## Instrument logic (parseInstrumentLogic) -/

/-- Lazy creation of the sticky cursor with its defaults (source lines
280-282 and 288-291): `{ octave: 4, duration: 1.0, tick: 0 }`. -/
def ensureCursor (instId voiceId : Tok) (st : ParserSt) : ParserSt :=
  match getCursor st instId voiceId with
  | some _ => st
  | none =>
    {st with globalCursors :=
      setCursor instId voiceId ⟨4, Q.ofInt 1, Q.ofInt 0⟩ st.globalCursors}

/-- Placeholder for the non-null assertion `find(...)!` of the source;
unreachable because `parseMeasure` dispatches only on known ids. -/
def undefinedInst : InstrumentDef :=
  ⟨[], [], none, "standard".toList, none, none, none, none, none, none, none⟩

def voiceGroupLoop : Nat → InstrumentDef → Tok → Q → ParserSt → Option ParserSt
  | 0, _, _, _, _ => none
  | f+1, inst, instId, base, st =>
    if peekT st ≠ "\x7d".toList ∧ st.tokenIndex < st.tokens.length then
      let vk := consumeT st
      let voiceId := removeFirstChar ':' vk.1
      let st1 := if peekT vk.2 = ":".toList then consume1 vk.2 else vk.2
      let st2 := ensureCursor instId voiceId st1
      (parseVoiceStream f inst voiceId base "|".toList (Q.ofInt 0) st2).bind fun st3 =>
        let st4 := if peekT st3 = "|".toList then consume1 st3 else st3
        voiceGroupLoop f inst instId base st4
    else some (consume1 st)

def parseInstrumentLogic (fuel : Nat) (instId : Tok) (measureStartTick : Q)
    (st : ParserSt) : Option ParserSt :=
  let st1 := consume1 st
  let st2 := if peekT st1 = ":".toList then consume1 st1 else st1
  let inst := (st2.instruments.find? (fun i => i.id = instId)).getD undefinedInst
  if peekT st2 = "\x7b".toList then
    voiceGroupLoop fuel inst instId measureStartTick (consume1 st2)
  else
    let voiceId := "v1".toList
    let st3 := ensureCursor instId voiceId st2
    (parseVoiceStream fuel inst voiceId measureStartTick "|".toList (Q.ofInt 0) st3).map
      fun st4 => if peekT st4 = "|".toList then consume1 st4 else st4

/- ## Meta blocks (parseMetaBlock) -/

/-- The `[`-value accumulation `while (!val.endsWith(']')) val += consume()`.
The source has no end-of-input bound here: past the end `consume()`
returns `''` forever, so on a `[` value with no `]`-terminated token the
source loops forever and this model returns `none` for every fuel. -/
def metaValLoop : Nat → Tok → ParserSt → Option (Tok × ParserSt)
  | 0, _, _ => none
  | f+1, val, st =>
    if endsWithChar ']' val then some (val, st)
    else
      let t := consumeT st
      metaValLoop f (val ++ t.1) t.2

/-- One `key: value` update of `this.score.meta`. -/
def applyMetaKV (key val : Tok) (m : OmniMeta) : OmniMeta :=
  let cleanVal := val.filter (fun c => c ≠ '"')
  let lowerKey := lowerTok key
  if lowerKey = "title".toList then {m with title := cleanVal}
  else if lowerKey = "composer".toList then {m with composer := cleanVal}
  else if lowerKey = "tempo".toList then {m with tempo := jsParseInt cleanVal}
  else if lowerKey = "key".toList then {m with key := cleanVal}
  else if lowerKey = "time".toList then
    let parts := splitOnChar '/' cleanVal
    match jsParseInt (parts.getD 0 []), (parts.get? 1).bind jsParseInt with
    | some n, some d => {m with timeSignature := (n, d)}
    | _, _ => m
  else m

def metaLoop : Nat → ParserSt → Option ParserSt
  | 0, _ => none
  | f+1, st =>
    if peekT st ≠ "\x7d".toList ∧ st.tokenIndex < st.tokens.length then
      let k := consumeT st
      let key := removeFirstChar ':' k.1
      let st1 := if peekT k.2 = ":".toList then consume1 k.2 else k.2
      let v := consumeT st1
      (if startsWithChar '[' v.1 then metaValLoop f v.1 v.2 else some (v.1, v.2)).bind
        fun vs =>
          let st2 := {vs.2 with meta := applyMetaKV key vs.1 vs.2.meta}
          let st3 := if peekT st2 = ",".toList then consume1 st2 else st2
          metaLoop f st3
    else some (consume1 st)

def parseMetaBlock (fuel : Nat) (st : ParserSt) : Option ParserSt :=
  let st1 := consume1 st
  let m := matchT "\x7b".toList st1
  if m.1 then metaLoop fuel m.2 else some m.2

/- ## Macro definitions (parseMacroDef) -/

def macroBodyLoop : Nat → Nat → List Tok → ParserSt → Option (List Tok × ParserSt)
  | 0, _, _, _ => none
  | f+1, balance, acc, st =>
    if 0 < balance ∧ st.tokenIndex < st.tokens.length then
      let t := consumeT st
      let b2 := if t.1 = "\x7b".toList then balance + 1
                else if t.1 = "\x7d".toList then balance - 1 else balance
      macroBodyLoop f b2 (if 0 < b2 then acc ++ [t.1] else acc) t.2
    else some (acc, st)

/-- `parseMacroDef`: the signature is a single token; the body tokens are
collected by brace counting and stored joined with spaces.  If the token
after the (optional) `=` is not `{`, the source returns without storing
anything. -/
def parseMacroDef (fuel : Nat) (st : ParserSt) : Option ParserSt :=
  let st1 := consume1 st
  let sg := consumeT st1
  let nameParams : Tok × List Tok :=
    if containsChar '(' sg.1 then
      let ps := splitOnChar '(' sg.1
      (ps.getD 0 [], ((splitOnChar ',' (removeFirstChar ')' (ps.getD 1 []))).map trimTok))
    else (sg.1, [])
  let st2 := (matchT "=".toList sg.2).2
  let m := matchT "\x7b".toList st2
  if m.1 then
    (macroBodyLoop fuel 1 [] m.2).map fun r =>
      {r.2 with macros := setA nameParams.1 ⟨nameParams.2, joinSpace r.1⟩ r.2.macros}
  else some m.2

/- ## Groups and instrument definitions (parseGroup / parseDef) -/

/-- The attribute swallow `while (this.peek() !== '{') this.consume();`.
The source has no end-of-input bound: past the end `peek()` is `''`,
never `'{'`, so when no `{` follows a `group` label the source loops
forever and this model returns `none` for every fuel. -/
def groupSkipLoop : Nat → ParserSt → Option ParserSt
  | 0, _ => none
  | f+1, st =>
    if peekT st = "\x7b".toList then some st else groupSkipLoop f (consume1 st)

def applyDefAttr (k v : Tok) (inst : InstrumentDef) : InstrumentDef :=
  if k = "style".toList then {inst with style := v}
  else if k = "clef".toList then {inst with clef := some v}
  else if k = "transpose".toList then {inst with transpose := jsParseInt v}
  else if k = "patch".toList then {inst with patch := some v}
  else if k = "vol".toList then {inst with vol := jsParseFloat v}
  else if k = "pan".toList then {inst with pan := jsParseFloat v}
  else if k = "map".toList ∧ v = "gm_kit".toList then {inst with map := some GM_DRUM_MAP}
  else inst

def reservedAfterDef : List Tok :=
  ["def".toList, "group".toList, "measure".toList, "meta".toList,
   "macro".toList, "\x7d".toList, "\x7b".toList]

def defAttrLoop : Nat → InstrumentDef → ParserSt → Option (InstrumentDef × ParserSt)
  | 0, _, _ => none
  | f+1, inst, st =>
    let next := peekT st
    if reservedAfterDef.contains (lowerTok next) ∨ next = [] then some (inst, st)
    else
      let a := consumeT st
      if containsChar '=' a.1 then
        let ps := splitOnChar '=' a.1
        let k := lowerTok (ps.getD 0 [])
        let v := (ps.getD 1 []).filter (fun c => c ≠ '"')
        defAttrLoop f (applyDefAttr k v inst) a.2
      else some (inst, a.2)

def parseDef (fuel : Nat) (st : ParserSt) : Option ParserSt :=
  let st1 := consume1 st
  let idT := consumeT st1
  let labelSt : Tok × ParserSt :=
    if startsWithChar '"' (peekT idT.2) then
      let l := consumeT idT.2
      (l.1.filter (fun c => c ≠ '"'), l.2)
    else (idT.1, idT.2)
  let inst0 : InstrumentDef :=
    { id := idT.1, label := labelSt.1, group := labelSt.2.currentGroup,
      style := "standard".toList, clef := none, transpose := none,
      tuning := none, map := none, patch := none, vol := none, pan := none }
  (defAttrLoop fuel inst0 labelSt.2).map fun r =>
    {r.2 with instruments := r.2.instruments ++ [r.1],
              globalCursors := setA idT.1 [] r.2.globalCursors}

def groupBodyLoop : Nat → ParserSt → Option ParserSt
  | 0, _ => none
  | f+1, st =>
    if peekT st ≠ "\x7d".toList ∧ st.tokenIndex < st.tokens.length then
      (if lowerTok (peekT st) = "def".toList then parseDef f st
       else some (consume1 st)).bind (groupBodyLoop f)
    else some st

/-- `parseGroup`: note the source sets `currentGroup` to the literal
string `"Group"`, not to the group's label. -/
def parseGroup (fuel : Nat) (st : ParserSt) : Option ParserSt :=
  let st1 := consume1 (consume1 st)
  (groupSkipLoop fuel st1).bind fun st2 =>
    let st3 := {consume1 st2 with currentGroup := some ("Group".toList)}
    (groupBodyLoop fuel st3).map fun st4 =>
      {consume1 st4 with currentGroup := none}

/- ## Measures (parseMeasure) -/

/-- The balanced-brace scan that finds the end of the measure block. -/
def measureSkipLoop : Nat → Nat → ParserSt → Option ParserSt
  | 0, _, _ => none
  | f+1, balance, st =>
    if 0 < balance ∧ st.tokenIndex < st.tokens.length then
      let t := consumeT st
      let b2 := if t.1 = "\x7b".toList then balance + 1
                else if t.1 = "\x7d".toList then balance - 1 else balance
      measureSkipLoop f b2 t.2
    else some st

/-- `[a, a+1, ..., b]` (empty when `b < a`), the iterations of
`for (let m = startM; m <= endM; m++)`. -/
def intRangeIncl (a b : Int) : List Int :=
  (List.range (b - a + 1).toNat).map (fun i => a + i)

def measureInnerLoop : Nat → Nat → Q → ParserSt → Option ParserSt
  | 0, _, _, _ => none
  | f+1, blockEnd, offset, st =>
    if st.tokenIndex < blockEnd then
      let t := peekT st
      if lowerTok t = "meta".toList then
        (parseMetaBlock f st).bind (measureInnerLoop f blockEnd offset)
      else
        let possibleId := removeFirstChar ':' t
        if st.instruments.any (fun i => i.id = possibleId) then
          (parseInstrumentLogic f possibleId offset st).bind
            (measureInnerLoop f blockEnd offset)
        else measureInnerLoop f blockEnd offset (consume1 st)
    else some st

def measureReplayLoop : Nat → List Int → Nat → Nat → Q → ParserSt → Option ParserSt
  | _, [], _, _, _, st => some st
  | 0, _ :: _, _, _, _, _ => none
  | f+1, m :: ms, blockStart, blockEnd, tpm, st =>
    (measureInnerLoop f blockEnd ((Q.ofInt (m - 1)).mul tpm)
        {st with tokenIndex := blockStart}).bind
      fun st2 => measureReplayLoop f ms blockStart blockEnd tpm st2

/-- `parseMeasure`: parse the (possibly ranged) index, capture the block
span by brace counting, then replay it once per index.  Note
`ticksPerMeasure` is computed once, before the replay loop, from the
time signature in scope at block entry (source lines 242-243). -/
def parseMeasure (fuel : Nat) (st : ParserSt) : Option ParserSt :=
  let st1 := consume1 st
  let rg := consumeT st1
  let se : Option Int × Option Int :=
    if containsChar '-' rg.1 then
      let p := splitOnChar '-' rg.1
      (jsParseInt (p.getD 0 []), jsParseInt (p.getD 1 []))
    else (jsParseInt rg.1, jsParseInt rg.1)
  let m := matchT "\x7b".toList rg.2
  if m.1 then
    let blockStart := m.2.tokenIndex
    (measureSkipLoop fuel 1 m.2).bind fun st2 =>
      let blockEnd := st2.tokenIndex - 1
      let ts := st2.meta.timeSignature
      let tpm := ((Q.ofInt ts.1).mul ((Q.ofInt 4).div (Q.ofInt ts.2))).mul TICKS_PER_QUARTER
      let ms : List Int :=
        match se.1, se.2 with
        | some a, some b => intRangeIncl a b
        | _, _ => []
      (measureReplayLoop fuel ms blockStart blockEnd tpm st2).map fun st3 =>
        {st3 with tokenIndex := blockEnd + 1}
  else some m.2

/- ## Document body, finalization, and the public parse() -/

def parseBody : Nat → ParserSt → Option ParserSt
  | 0, _ => none
  | f+1, st =>
    if st.tokenIndex < st.tokens.length ∧ peekT st ≠ "\x7d".toList then
      let t := lowerTok (peekT st)
      (if t = "meta".toList then parseMetaBlock f st
       else if t = "macro".toList then parseMacroDef f st
       else if t = "group".toList then parseGroup f st
       else if t = "def".toList then parseDef f st
       else if t = "measure".toList then parseMeasure f st
       else some (consume1 st)).bind (parseBody f)
    else some st

/-- The initial `this.score` of the constructor. -/
def initMeta : OmniMeta :=
  { title := "Untitled".toList, composer := "Unknown".toList, tempo := some 120,
    timeSignature := (4, 4), key := "C".toList, style := "standard".toList }

def initState (tokens : List Tok) : ParserSt :=
  { tokens := tokens, tokenIndex := 0, meta := initMeta, instruments := [],
    timeline := [], macros := [], currentGroup := none, globalCursors := [] }

/-- Insertion step of the finalization sort; an earlier-produced event is
placed before any event with an equal `tickStart`. -/
def insertByTick (x : NoteEvent) : List NoteEvent → List NoteEvent
  | [] => [x]
  | y :: ys =>
    if Q.le x.tickStart y.tickStart then x :: y :: ys else y :: insertByTick x ys

/-- The model of `timeline.sort((a, b) => a.tickStart - b.tickStart)`:
a stable sort by `tickStart` (Array.prototype.sort is required to be
stable since ES2019). -/
def sortTimeline : List NoteEvent → List NoteEvent
  | [] => []
  | x :: xs => insertByTick x (sortTimeline xs)

/-- Finalization (source lines 65-72): sort the timeline, then set
`durationTicks` to the last event's `tickEnd` (it stays 0, its
constructor value, for an empty timeline). -/
def finalizeScore (st : ParserSt) : CompiledScore :=
  let tl := sortTimeline st.timeline
  { meta := st.meta, instruments := st.instruments, timeline := tl,
    durationTicks :=
      match tl.getLast? with
      | some e => e.tickEnd
      | none => Q.ofInt 0 }

/-- `parse()` up to (but not including) finalization: strip comments,
tokenize, then either the explicit `omniscore { ... }` root or the
lenient implicit root. -/
def parseCore (fuel : Nat) (src : List Char) : Option ParserSt :=
  let st0 := initState (tokenize (stripComments src))
  if peekT st0 = "omniscore".toList then
    let m := matchT "\x7b".toList (consume1 st0)
    if m.1 then (parseBody fuel m.2).map (fun st => (matchT "\x7d".toList st).2)
    else some m.2
  else parseBody fuel st0

/-- The public `parse()`: `none` only when the fuel runs out, which on
certain malformed inputs (see the non-termination theorem) happens for
every fuel, mirroring a source-level infinite loop. -/
def parse (fuel : Nat) (src : List Char) : Option CompiledScore :=
  (parseCore fuel src).map finalizeScore

/- ## Statement-level definitions used by the theorems -/

/-- The velocity rule parseEvent implements: 0.8 unless the first
modifier named `vol` or `vel` has a numeric first argument, in which
case that argument divided by 127 (no clamping). -/
def velFromModifiers (ms : List Attribute) : Q :=
  match ms.find? (fun a => a.name = "vol".toList ∨ a.name = "vel".toList) with
  | some a =>
    match a.args.head? with
    | some (Sum.inr q) => q.div (Q.ofInt 127)
    | _ => ⟨4, 5, by omega⟩
  | none => ⟨4, 5, by omega⟩

/-- Every event of the accumulated timeline satisfies the velocity rule. -/
def TimelineVelOK (st : ParserSt) : Prop :=
  ∀ e ∈ st.timeline, e.velocity = velFromModifiers e.modifiers

/-- Concrete sources used by the theorems. -/
def srcGroupA : List Char := "group a".toList

def srcSticky : List Char := "def p measure 1 \x7b p: c4:4 d e \x7d".toList

def srcHat : List Char :=
  "macro HatPattern(vel) = \x7b h:8.vol($vel) h h h \x7d def drm measure 1 \x7b drm: $HatPattern(80) \x7d".toList

def srcChord : List Char := "def p measure 1 \x7b p: [c4 e4 g4]:4 \x7d".toList

def srcReplayMeta : List Char :=
  "def p measure 1-2 \x7b meta \x7b time: \"1/4\" \x7d p: c \x7d measure 3 \x7b p: d \x7d".toList

def srcLongShort : List Char :=
  "def p measure 1 \x7b p \x7b v1: \"c:1\" | v2: c d \x7d \x7d".toList

def srcTime34 : List Char := "meta \x7b time: \"3/4\" \x7d".toList

def srcTimeBad : List Char := "meta \x7b time: \"abc\" \x7d".toList

def srcTimeZero : List Char := "meta \x7b time: \"4/0\" \x7d".toList

def srcFirstVoice : List Char := "def p measure 1 \x7b p: c \x7d".toList

def srcVolPair : List Char := "def p measure 1 \x7b p: \"a.vol(x).vol(50).z\" \x7d".toList

/- ## Generic lemmas: association lists, the stable sort, Q order -/

theorem Q.le_refl (a : Q) : Q.le a a := by unfold Q.le; omega

theorem getA_setA_same {α : Type} (k : Tok) (v : α) :
    ∀ l : List (Tok × α), getA k (setA k v l) = some v := by
  intro l
  induction l with
  | nil => simp [setA, getA]
  | cons p r ih =>
    by_cases h : p.1 = k
    · simp [setA, h, getA]
    · simp [setA, h, getA, ih]

theorem mem_insertByTick {z x : NoteEvent} {l : List NoteEvent} :
    z ∈ insertByTick x l ↔ z = x ∨ z ∈ l := by
  induction l with
  | nil => simp [insertByTick]
  | cons y ys ih =>
    rw [insertByTick]
    by_cases h : Q.le x.tickStart y.tickStart
    · simp [h]
    · simp only [if_neg h, List.mem_cons, ih]
      tauto

theorem pairwise_insertByTick {x : NoteEvent} {l : List NoteEvent}
    (h : l.Pairwise (fun a b => Q.le a.tickStart b.tickStart)) :
    (insertByTick x l).Pairwise (fun a b => Q.le a.tickStart b.tickStart) := by
  induction l with
  | nil => simp [insertByTick]
  | cons y ys ih =>
    rw [insertByTick]
    rcases List.pairwise_cons.mp h with ⟨hy, hys⟩
    by_cases hxy : Q.le x.tickStart y.tickStart
    · rw [if_pos hxy]
      refine List.pairwise_cons.mpr ⟨?_, h⟩
      intro z hz
      rcases List.mem_cons.mp hz with rfl | hz2
      · exact hxy
      · exact Q.le_trans hxy (hy z hz2)
    · rw [if_neg hxy]
      have hyx : Q.le y.tickStart x.tickStart :=
        (Q.le_total x.tickStart y.tickStart).resolve_left hxy
      refine List.pairwise_cons.mpr ⟨?_, ih hys⟩
      intro z hz
      rcases mem_insertByTick.mp hz with rfl | hz2
      · exact hyx
      · exact hy z hz2

theorem sortTimeline_pairwise (l : List NoteEvent) :
    (sortTimeline l).Pairwise (fun a b => Q.le a.tickStart b.tickStart) := by
  induction l with
  | nil => simp [sortTimeline]
  | cons x xs ih => exact pairwise_insertByTick ih

theorem mem_sortTimeline {z : NoteEvent} {l : List NoteEvent} :
    z ∈ sortTimeline l ↔ z ∈ l := by
  induction l with
  | nil => simp [sortTimeline]
  | cons x xs ih =>
    rw [sortTimeline, mem_insertByTick]
    simp [ih]

theorem filter_insertByTick (x : NoteEvent) (l : List NoteEvent) (k : Q) :
    (insertByTick x l).filter (fun e => e.tickStart = k) =
      (x :: l).filter (fun e => e.tickStart = k) := by
  induction l with
  | nil => rfl
  | cons y ys ih =>
    rw [insertByTick]
    by_cases hxy : Q.le x.tickStart y.tickStart
    · rw [if_pos hxy]
    · rw [if_neg hxy]
      have hne : ¬ (x.tickStart = y.tickStart) := by
        intro he; exact hxy (he ▸ Q.le_refl x.tickStart)
      by_cases hx : x.tickStart = k
      · have hy : ¬ (y.tickStart = k) := by
          intro hyk; exact hne (hx.trans hyk.symm)
        simp [List.filter_cons, hx, hy, ih]
      · by_cases hy : y.tickStart = k
        · simp [List.filter_cons, hx, hy, ih]
        · simp [List.filter_cons, hx, hy, ih]

theorem sortTimeline_filter (l : List NoteEvent) (k : Q) :
    (sortTimeline l).filter (fun e => e.tickStart = k) =
      l.filter (fun e => e.tickStart = k) := by
  induction l with
  | nil => rfl
  | cons x xs ih =>
    rw [sortTimeline, filter_insertByTick]
    simp only [List.filter_cons]
    rw [ih]

/- ## Velocity invariant: event construction -/

theorem resolvePitch_keeps (p : Tok) (inst : InstrumentDef) (c : VoiceCursor)
    (e : NoteEvent) :
    (resolvePitch p inst c e).1.velocity = e.velocity ∧
    (resolvePitch p inst c e).1.modifiers = e.modifiers := by
  unfold resolvePitch
  constructor
  all_goals dsimp only
  all_goals repeat' split
  all_goals simp

theorem foldResolve_keeps (inst : InstrumentDef) :
    ∀ (ts : List Tok) (pc : NoteEvent × VoiceCursor),
      ((ts.foldl (fun pc t => resolvePitch t inst pc.2 pc.1) pc).1.velocity = pc.1.velocity) ∧
      ((ts.foldl (fun pc t => resolvePitch t inst pc.2 pc.1) pc).1.modifiers = pc.1.modifiers) := by
  intro ts
  induction ts with
  | nil => intro pc; exact ⟨rfl, rfl⟩
  | cons t ts ih =>
    intro pc
    simp only [List.foldl_cons]
    have h := resolvePitch_keeps t inst pc.2 pc.1
    have h2 := ih (resolvePitch t inst pc.2 pc.1)
    exact ⟨h2.1.trans h.1, h2.2.trans h.2⟩

theorem resolveEventPitches_keeps (pitchStr : Tok) (inst : InstrumentDef)
    (c1 : VoiceCursor) (ev1 : NoteEvent) :
    (resolveEventPitches pitchStr inst c1 ev1).1.velocity = ev1.velocity ∧
    (resolveEventPitches pitchStr inst c1 ev1).1.modifiers = ev1.modifiers := by
  unfold resolveEventPitches
  split_ifs
  · exact ⟨rfl, rfl⟩
  · exact ⟨rfl, rfl⟩
  · have h := foldResolve_keeps inst
      (splitWsRuns (pitchStr.filter (fun c => c ≠ '[' ∧ c ≠ ']')))
      ({ev1 with type := .chord}, c1)
    exact ⟨h.1, h.2⟩
  · exact resolvePitch_keeps pitchStr inst c1 ev1

theorem applyVolOverride_velocity (ms : List Attribute) (e : NoteEvent)
    (hv : e.velocity = ⟨4, 5, by omega⟩) (hm : e.modifiers = ms) :
    (applyVolOverride ms e).velocity = velFromModifiers (applyVolOverride ms e).modifiers := by
  unfold applyVolOverride velFromModifiers
  cases hf : ms.find? (fun a => a.name = "vol".toList ∨ a.name = "vel".toList) with
  | none => simp only [hm, hf]; exact hv
  | some a =>
    cases hh : a.args.head? with
    | none => simp only [hm, hf, hh]; exact hv
    | some arg =>
      cases arg with
      | inl s => simp only [hm, hf, hh]; exact hv
      | inr q => simp only [hm, hf, hh]

theorem buildEvent_velocity (token : Tok) (inst : InstrumentDef) (voiceId : Tok)
    (b r : Q) (cursor : VoiceCursor) :
    (buildEvent token inst voiceId b r cursor).1.velocity =
      velFromModifiers (buildEvent token inst voiceId b r cursor).1.modifiers := by
  unfold buildEvent
  simp only []
  apply applyVolOverride_velocity
  · refine (resolveEventPitches_keeps _ _ _ _).1.trans ?_
    split <;> rfl
  · refine (resolveEventPitches_keeps _ _ _ _).2.trans ?_
    split <;> rfl

theorem velOK_of_timeline_eq {st st' : ParserSt} (he : st'.timeline = st.timeline)
    (h : TimelineVelOK st) : TimelineVelOK st' :=
  fun e hm => h e (he ▸ hm)

theorem parseEvent_velOK (token : Tok) (inst : InstrumentDef) (vid : Tok)
    (b r : Q) (st : ParserSt) (h : TimelineVelOK st) :
    TimelineVelOK (parseEvent token inst vid b r st).1 := by
  unfold parseEvent
  split
  · exact h
  · intro e he
    simp only [List.mem_append, List.mem_singleton] at he
    rcases he with he | he
    · exact h e he
    · rw [he]; exact buildEvent_velocity token inst vid b r _

/- ## Velocity invariant: parsers that do not touch the timeline -/

@[simp] theorem consume1_timeline (st : ParserSt) : (consume1 st).timeline = st.timeline := rfl

@[simp] theorem consumeT_timeline (st : ParserSt) : (consumeT st).2.timeline = st.timeline := rfl

@[simp] theorem ite_consume1_timeline (c : Prop) [Decidable c] (y : ParserSt) :
    (if c then consume1 y else y).timeline = y.timeline := by split <;> rfl

@[simp] theorem matchT_timeline (v : Tok) (st : ParserSt) :
    ((matchT v st).2).timeline = st.timeline := by unfold matchT; split <;> rfl

@[simp] theorem ensureCursor_timeline (i v : Tok) (st : ParserSt) :
    (ensureCursor i v st).timeline = st.timeline := by
  unfold ensureCursor; split <;> rfl

theorem metaValLoop_timeline :
    ∀ (f : Nat) (val : Tok) (st : ParserSt) (r : Tok × ParserSt),
      metaValLoop f val st = some r → r.2.timeline = st.timeline := by
  intro f
  induction f with
  | zero => intro val st r h; simp [metaValLoop] at h
  | succ f ih =>
    intro val st r h
    rw [metaValLoop] at h
    split at h
    · injection h with h2; subst h2; rfl
    · dsimp only at h
      simpa using ih _ _ _ h
  
theorem metaLoop_timeline :
    ∀ (f : Nat) (st st' : ParserSt), metaLoop f st = some st' →
      st'.timeline = st.timeline := by
  intro f
  induction f with
  | zero => intro st st' h; simp [metaLoop] at h
  | succ f ih =>
    intro st st' h
    rw [metaLoop] at h
    split at h
    · dsimp only at h
      rcases Option.bind_eq_some.mp h with ⟨vs, hvs, h2⟩
      have h4 : vs.2.timeline = st.timeline := by
        split at hvs <;> split at hvs <;>
          first
            | (simpa using metaValLoop_timeline _ _ _ _ hvs)
            | (injection hvs with h5; subst h5; simp)
      have h3 := ih _ _ h2
      simp only [ite_consume1_timeline] at h3
      exact h3.trans h4
    · injection h with h2; subst h2; rfl

theorem parseMetaBlock_timeline (f : Nat) (st st' : ParserSt)
    (h : parseMetaBlock f st = some st') : st'.timeline = st.timeline := by
  unfold parseMetaBlock at h
  dsimp only at h
  split at h
  · simpa using metaLoop_timeline _ _ _ h
  · injection h with h2; subst h2; simp

theorem macroBodyLoop_timeline :
    ∀ (f balance : Nat) (acc : List Tok) (st : ParserSt) (r : List Tok × ParserSt),
      macroBodyLoop f balance acc st = some r → r.2.timeline = st.timeline := by
  intro f
  induction f with
  | zero => intro b acc st r h; simp [macroBodyLoop] at h
  | succ f ih =>
    intro b acc st r h
    rw [macroBodyLoop] at h
    split at h
    · dsimp only at h
      simpa using ih _ _ _ _ h
    · injection h with h2; subst h2; rfl

theorem parseMacroDef_timeline (f : Nat) (st st' : ParserSt)
    (h : parseMacroDef f st = some st') : st'.timeline = st.timeline := by
  unfold parseMacroDef at h
  dsimp only at h
  split at h
  · rcases Option.map_eq_some'.mp h with ⟨r, hr, h2⟩
    subst h2
    simpa using macroBodyLoop_timeline _ _ _ _ _ hr
  · injection h with h2; subst h2; simp

theorem groupSkipLoop_timeline :
    ∀ (f : Nat) (st st' : ParserSt), groupSkipLoop f st = some st' →
      st'.timeline = st.timeline := by
  intro f
  induction f with
  | zero => intro st st' h; simp [groupSkipLoop] at h
  | succ f ih =>
    intro st st' h
    rw [groupSkipLoop] at h
    split at h
    · injection h with h2; subst h2; rfl
    · simpa using ih _ _ h

theorem defAttrLoop_timeline :
    ∀ (f : Nat) (inst : InstrumentDef) (st : ParserSt) (r : InstrumentDef × ParserSt),
      defAttrLoop f inst st = some r → r.2.timeline = st.timeline := by
  intro f
  induction f with
  | zero => intro inst st r h; simp [defAttrLoop] at h
  | succ f ih =>
    intro inst st r h
    rw [defAttrLoop] at h
    dsimp only at h
    split at h
    · injection h with h2; subst h2; rfl
    · split at h
      · simpa using ih _ _ _ h
      · injection h with h2; subst h2; simp

theorem parseDef_timeline (f : Nat) (st st' : ParserSt)
    (h : parseDef f st = some st') : st'.timeline = st.timeline := by
  unfold parseDef at h
  dsimp only at h
  rcases Option.map_eq_some'.mp h with ⟨r, hr, h2⟩
  subst h2
  have h3 := defAttrLoop_timeline _ _ _ _ hr
  revert h3
  split <;> (intro h3; simpa using h3)

theorem groupBodyLoop_timeline :
    ∀ (f : Nat) (st st' : ParserSt), groupBodyLoop f st = some st' →
      st'.timeline = st.timeline := by
  intro f
  induction f with
  | zero => intro st st' h; simp [groupBodyLoop] at h
  | succ f ih =>
    intro st st' h
    rw [groupBodyLoop] at h
    split at h
    · rcases Option.bind_eq_some.mp h with ⟨st2, hst2, h2⟩
      have h3 := ih _ _ h2
      rw [h3]
      split at hst2
      · exact parseDef_timeline _ _ _ hst2
      · injection hst2 with h4; subst h4; simp
    · injection h with h2; subst h2; rfl

theorem parseGroup_timeline (f : Nat) (st st' : ParserSt)
    (h : parseGroup f st = some st') : st'.timeline = st.timeline := by
  unfold parseGroup at h
  dsimp only at h
  rcases Option.bind_eq_some.mp h with ⟨st2, hst2, h2⟩
  rcases Option.map_eq_some'.mp h2 with ⟨st3, hst3, h4⟩
  subst h4
  have e1 := groupSkipLoop_timeline _ _ _ hst2
  have e2 := groupBodyLoop_timeline _ _ _ hst3
  exact e2.trans e1

theorem measureSkipLoop_timeline :
    ∀ (f balance : Nat) (st st' : ParserSt), measureSkipLoop f balance st = some st' →
      st'.timeline = st.timeline := by
  intro f
  induction f with
  | zero => intro b st st' h; simp [measureSkipLoop] at h
  | succ f ih =>
    intro b st st' h
    rw [measureSkipLoop] at h
    split at h
    · dsimp only at h
      simpa using ih _ _ _ h
    · injection h with h2; subst h2; rfl

/- ## Velocity invariant: event-producing parsers -/

theorem foldParseEvents_velOK (inst : InstrumentDef) (vid : Tok) (b : Q) :
    ∀ (ts : List Tok) (acc : ParserSt × Q), TimelineVelOK acc.1 →
      TimelineVelOK ((ts.foldl (fun acc t =>
        ((parseEvent t inst vid b (Q.ofInt 0) acc.1).1,
         acc.2.add (parseEvent t inst vid b (Q.ofInt 0) acc.1).2)) acc).1) := by
  intro ts
  induction ts with
  | nil => intro acc h; exact h
  | cons t ts ih =>
    intro acc h
    simp only [List.foldl_cons]
    exact ih _ (parseEvent_velOK _ _ _ _ _ _ h)

theorem handleMacroRef_velOK (token : Tok) (inst : InstrumentDef) (vid : Tok)
    (b : Q) (st : ParserSt) (h : TimelineVelOK st) :
    TimelineVelOK (handleMacroRef token inst vid b st).1 := by
  unfold handleMacroRef
  dsimp only
  split
  · exact h
  · exact foldParseEvents_velOK inst vid b _ _ h

theorem parseVoiceStream_velOK :
    ∀ (f : Nat) (inst : InstrumentDef) (vid : Tok) (b : Q) (term : Tok) (cur : Q)
      (st st' : ParserSt), parseVoiceStream f inst vid b term cur st = some st' →
      TimelineVelOK st → TimelineVelOK st' := by
  intro f
  induction f with
  | zero => intro inst vid b term cur st st' h h0; simp [parseVoiceStream] at h
  | succ f ih =>
    intro inst vid b term cur st st' h h0
    rw [parseVoiceStream] at h
    split at h
    · dsimp only at h
      split at h
      · exact ih _ _ _ _ _ _ _ h (velOK_of_timeline_eq (consumeT_timeline st) h0)
      · split at h
        · exact ih _ _ _ _ _ _ _ h
            (handleMacroRef_velOK _ _ _ _ _ (velOK_of_timeline_eq (consumeT_timeline st) h0))
        · exact ih _ _ _ _ _ _ _ h
            (parseEvent_velOK _ _ _ _ _ _ (velOK_of_timeline_eq (consumeT_timeline st) h0))
    · injection h with h2; subst h2; exact h0

theorem voiceGroupLoop_velOK :
    ∀ (f : Nat) (inst : InstrumentDef) (instId : Tok) (b : Q) (st st' : ParserSt),
      voiceGroupLoop f inst instId b st = some st' →
      TimelineVelOK st → TimelineVelOK st' := by
  intro f
  induction f with
  | zero => intro inst instId b st st' h h0; simp [voiceGroupLoop] at h
  | succ f ih =>
    intro inst instId b st st' h h0
    rw [voiceGroupLoop] at h
    split at h
    · dsimp only at h
      rcases Option.bind_eq_some.mp h with ⟨st3, hst3, h2⟩
      have hv3 : TimelineVelOK st3 := by
        apply parseVoiceStream_velOK _ _ _ _ _ _ _ _ hst3
        apply velOK_of_timeline_eq (ensureCursor_timeline _ _ _)
        apply velOK_of_timeline_eq (ite_consume1_timeline _ _)
        exact velOK_of_timeline_eq (consumeT_timeline st) h0
      exact ih _ _ _ _ _ h2 (velOK_of_timeline_eq (ite_consume1_timeline _ _) hv3)
    · injection h with h2; subst h2
      exact velOK_of_timeline_eq (consume1_timeline st) h0

theorem parseInstrumentLogic_velOK (f : Nat) (instId : Tok) (b : Q)
    (st st' : ParserSt) (h : parseInstrumentLogic f instId b st = some st')
    (h0 : TimelineVelOK st) : TimelineVelOK st' := by
  unfold parseInstrumentLogic at h
  dsimp only at h
  split at h <;> split at h
  all_goals
    first
      | (apply voiceGroupLoop_velOK _ _ _ _ _ _ h
         exact velOK_of_timeline_eq (by simp) h0)
      | (rcases Option.map_eq_some'.mp h with ⟨st4, hst4, h2⟩
         subst h2
         apply velOK_of_timeline_eq (ite_consume1_timeline _ _)
         apply parseVoiceStream_velOK _ _ _ _ _ _ _ _ hst4
         exact velOK_of_timeline_eq (by simp) h0)

theorem measureInnerLoop_velOK :
    ∀ (f blockEnd : Nat) (offset : Q) (st st' : ParserSt),
      measureInnerLoop f blockEnd offset st = some st' →
      TimelineVelOK st → TimelineVelOK st' := by
  intro f
  induction f with
  | zero => intro be off st st' h h0; simp [measureInnerLoop] at h
  | succ f ih =>
    intro be off st st' h h0
    rw [measureInnerLoop] at h
    split at h
    · dsimp only at h
      split at h
      · rcases Option.bind_eq_some.mp h with ⟨st2, hst2, h2⟩
        exact ih _ _ _ _ h2
          (velOK_of_timeline_eq (parseMetaBlock_timeline _ _ _ hst2) h0)
      · split at h
        · rcases Option.bind_eq_some.mp h with ⟨st2, hst2, h2⟩
          exact ih _ _ _ _ h2 (parseInstrumentLogic_velOK _ _ _ _ _ hst2 h0)
        · exact ih _ _ _ _ h (velOK_of_timeline_eq (consume1_timeline st) h0)
    · injection h with h2; subst h2; exact h0

theorem measureReplayLoop_velOK :
    ∀ (f : Nat) (ms : List Int) (bs be : Nat) (tpm : Q) (st st' : ParserSt),
      measureReplayLoop f ms bs be tpm st = some st' →
      TimelineVelOK st → TimelineVelOK st' := by
  intro f
  induction f with
  | zero =>
    intro ms bs be tpm st st' h h0
    cases ms with
    | nil => injection h with h2; subst h2; exact h0
    | cons m ms => simp [measureReplayLoop] at h
  | succ f ih =>
    intro ms bs be tpm st st' h h0
    cases ms with
    | nil => injection h with h2; subst h2; exact h0
    | cons m ms =>
      rw [measureReplayLoop] at h
      rcases Option.bind_eq_some.mp h with ⟨st2, hst2, h2⟩
      have hv2 : TimelineVelOK st2 :=
        measureInnerLoop_velOK _ _ _ _ _ hst2 (velOK_of_timeline_eq rfl h0)
      exact ih _ _ _ _ _ _ h2 hv2

theorem parseMeasure_velOK (f : Nat) (st st' : ParserSt)
    (h : parseMeasure f st = some st') (h0 : TimelineVelOK st) :
    TimelineVelOK st' := by
  unfold parseMeasure at h
  dsimp only at h
  split at h
  · rcases Option.bind_eq_some.mp h with ⟨st2, hst2, h2⟩
    rcases Option.map_eq_some'.mp h2 with ⟨st3, hst3, h4⟩
    subst h4
    apply velOK_of_timeline_eq (rfl)
    apply measureReplayLoop_velOK _ _ _ _ _ _ _ hst3
    apply velOK_of_timeline_eq (measureSkipLoop_timeline _ _ _ _ hst2)
    exact velOK_of_timeline_eq (matchT_timeline _ _) (velOK_of_timeline_eq rfl h0)
  · injection h with h2; subst h2
    exact velOK_of_timeline_eq (matchT_timeline _ _) (velOK_of_timeline_eq rfl h0)

theorem parseBody_velOK :
    ∀ (f : Nat) (st st' : ParserSt), parseBody f st = some st' →
      TimelineVelOK st → TimelineVelOK st' := by
  intro f
  induction f with
  | zero => intro st st' h h0; simp [parseBody] at h
  | succ f ih =>
    intro st st' h h0
    rw [parseBody] at h
    split at h
    · dsimp only at h
      rcases Option.bind_eq_some.mp h with ⟨st2, hst2, h2⟩
      refine ih _ _ h2 ?_
      split at hst2
      · exact velOK_of_timeline_eq (parseMetaBlock_timeline _ _ _ hst2) h0
      · split at hst2
        · exact velOK_of_timeline_eq (parseMacroDef_timeline _ _ _ hst2) h0
        · split at hst2
          · exact velOK_of_timeline_eq (parseGroup_timeline _ _ _ hst2) h0
          · split at hst2
            · exact velOK_of_timeline_eq (parseDef_timeline _ _ _ hst2) h0
            · split at hst2
              · exact parseMeasure_velOK _ _ _ hst2 h0
              · injection hst2 with h3; subst h3
                exact velOK_of_timeline_eq (consume1_timeline st) h0
    · injection h with h2; subst h2; exact h0

theorem parseCore_velOK (fuel : Nat) (src : List Char) (st : ParserSt)
    (h : parseCore fuel src = some st) : TimelineVelOK st := by
  unfold parseCore at h
  dsimp only at h
  have hinit : TimelineVelOK (initState (tokenize (stripComments src))) := by
    intro e he; simp [initState] at he
  split at h
  · split at h
    · rcases Option.map_eq_some'.mp h with ⟨st2, hst2, h2⟩
      subst h2
      apply velOK_of_timeline_eq (matchT_timeline _ _)
      apply parseBody_velOK _ _ _ hst2
      exact velOK_of_timeline_eq (matchT_timeline _ _)
        (velOK_of_timeline_eq (consume1_timeline _) hinit)
    · injection h with h2; subst h2
      exact velOK_of_timeline_eq (matchT_timeline _ _)
        (velOK_of_timeline_eq (consume1_timeline _) hinit)
  · exact parseBody_velOK _ _ _ h hinit

/- ## Non-termination of the group attribute swallow -/

theorem groupSkipLoop_none :
    ∀ (f : Nat) (st : ParserSt), st.tokens.length ≤ st.tokenIndex →
      groupSkipLoop f st = none := by
  intro f
  induction f with
  | zero => intro st h; rfl
  | succ f ih =>
    intro st h
    rw [groupSkipLoop]
    have hpeek : peekT st = [] := by
      unfold peekT
      rw [List.getD_eq_getElem?_getD, List.getElem?_eq_none h]
      rfl
    rw [if_neg (by rw [hpeek]; decide)]
    exact ih _ (by simpa [consume1, consumeT] using Nat.le_succ_of_le h)

/- ## The claims -/

/-- Claim C1.  The claim states that `parse()` terminates and returns a
CompiledScore for every input.  It does not: on the input `group a` the
attribute swallow of `parseGroup` (`while (this.peek() !== '{')
this.consume()`, source line 163) has no end-of-input bound, `peek()`
returns `''` forever, and `parse()` loops forever.  In the fuel model
this is `none` for every fuel.  (The sibling loops at lines 101, 148,
168, 235, 275 and 300 all carry a `tokenIndex < tokens.length` bound, so
the missing bound here and in the `[`-value accumulation at line 107
contradict the code's own pattern and §7 of the spec.) -/
theorem C1_parse_diverges_on_unclosed_group :
    ∀ fuel : Nat, parse fuel srcGroupA = none := by
  intro fuel
  have hb : ∀ f : Nat,
      parseBody f (initState (tokenize (stripComments srcGroupA))) = none := by
    intro f
    cases f with
    | zero => rfl
    | succ f =>
      have hstep : parseBody (f+1) (initState (tokenize (stripComments srcGroupA))) =
          (parseGroup f (initState (tokenize (stripComments srcGroupA)))).bind
            (parseBody f) := rfl
      have hg : parseGroup f (initState (tokenize (stripComments srcGroupA))) = none := by
        unfold parseGroup
        dsimp only
        rw [groupSkipLoop_none f _ (by decide)]
        rfl
      rw [hstep, hg]
      rfl
  cases fuel with
  | zero => rfl
  | succ f =>
    have hstep : parse (f+1) srcGroupA =
        (parseBody (f+1) (initState (tokenize (stripComments srcGroupA)))).map
          finalizeScore := rfl
    rw [hstep, hb]
    rfl

/-- Claim C2.  The claim states that the measure content `c4:4 d e` on a
standard-style voice compiles to exactly three NoteEvents of duration
one quarter spaced 1920 ticks.  It does not: `REGEX_TOKEN` makes `:` a
standalone punctuation token, so `c4:4` lexes as `c4`, `:`, `4`, the
sticky duration is never set (the `c4` token carries no `:duration`
part), and the stream yields five events — `c4`, a nominal midi-60
event for `:`, a nominal midi-60 event for `4`, `d`, `e` — while the
`c4`, `d`, `e` events sit at ticks 0, 5760, 7680, not 0, 1920, 3840.
This contradicts `parseEvent`'s own expectation of composite tokens
(source comment line 344, `Attribute Split: c4:4.vol(50).stacc`) and
the shipped SAMPLE_CODE, which is written in this syntax. -/
theorem C2_sticky_duration_stream_is_five_events :
    (parse 500 srcSticky).map
      (fun s => (s.timeline.length, s.timeline.map (fun e => e.tickStart),
                 s.timeline.map (fun e => e.pitches))) =
      some (5, [Q.ofInt 0, Q.ofInt 1920, Q.ofInt 3840, Q.ofInt 5760, Q.ofInt 7680],
            [[some 60], [some 60], [some 60], [some 62], [some 64]]) ∧
    (5 : Nat) ≠ 3 :=
  ⟨by decide, by decide⟩

/-- Claim C3.  The claim states that defining
`macro HatPattern(vel) = { h:8.vol($vel) h h h }` and invoking
`$HatPattern(80)` yields 4 events, the first with velocity 80/127,
spaced 960 ticks.  It does not: `(` is a standalone punctuation token,
so `parseMacroDef` reads only `HatPattern` as the signature, finds no
`{` after it (the next token is `(`) and returns without storing any
macro; the stray `}` of the macro body then ends the lenient root body,
so the following `def`/`measure` are never parsed: the macro table,
instrument table and timeline all stay empty. -/
theorem C3_macro_definition_never_stored :
    (parseCore 500 srcHat).map
      (fun st => (st.macros, st.timeline.length, st.instruments.length)) =
      some ([], 0, 0) ∧
    (0 : Nat) ≠ 4 :=
  ⟨by decide, by decide⟩

/-- Claim C4.  The claim states that `[c4 e4 g4]:4` produces exactly one
chord event with the three pitches.  It does not: `[`, `]` and `:` are
standalone punctuation tokens, so the stream lexes as `[`, `c4`, `e4`,
`g4`, `]`, `:`, `4`; the bare `[` token becomes a chord event whose
only pitch is the nominal midi-60 resolution of the empty string, the
three pitch tokens become three separate note events, `]` is skipped,
and `:` and `4` become two further nominal midi-60 note events — six
events in total. -/
theorem C4_chord_token_is_split_into_six_events :
    (parse 500 srcChord).map
      (fun s => (s.timeline.length, s.timeline.map (fun e => (e.type, e.pitches)))) =
      some (6, [(.chord, [some 60]), (.note, [some 60]), (.note, [some 64]),
                (.note, [some 67]), (.note, [some 60]), (.note, [some 60])]) ∧
    (6 : Nat) ≠ 1 :=
  ⟨by decide, by decide⟩

/-- Claim C5, counterexample.  On
`def p measure 1-2 { meta { time: "1/4" } p: c } measure 3 { p: d }`
the nested `meta` sets the time signature to 1/4 during replay 1, so
under the claim replay 2 of the same block would use
`(2-1) * (1 * (4/4) * 1920) = 1920`; the code instead places that
replay's event at 7680, because `ticksPerMeasure` was computed once at
block entry from the 4/4 then in scope (source lines 242-243), and the
final time signature really is `[1,4]` (the nested meta did run). -/
theorem C5_counterexample_replay_offset_not_rederived :
    (parse 800 srcReplayMeta).map
      (fun s => (s.timeline.map (fun e => (e.pitches, e.tickStart)), s.meta.timeSignature)) =
      some ([([some 60], Q.ofInt 0), ([some 62], Q.ofInt 3840), ([some 60], Q.ofInt 7680)],
            (1, 4)) ∧
    Q.ofInt 7680 ≠
      (Q.ofInt (2 - 1)).mul (((Q.ofInt 1).mul ((Q.ofInt 4).div (Q.ofInt 4))).mul TICKS_PER_QUARTER) :=
  ⟨by decide, by decide⟩

/-- Claim C5, amended.  A `measure start-end` block is replayed once per
index m in `[start, end]` at offset `(m-1) * ticksPerMeasure`, where
`ticksPerMeasure` is computed once at block entry from the time
signature then in scope; a nested `meta` re-entry that changes the time
signature does not affect the replays of the same block, only
subsequent measure blocks.  Demonstrated on the counterexample input:
the two replays of measure 1-2 sit at `(m-1) * 7680` (entry signature
4/4) although the block's own `meta` switches to 1/4 on the first
replay, while the following `measure 3` block uses the new signature
(`(3-1) * 1920 = 3840`). -/
theorem C5_amended_offsets_use_entry_time_signature :
    (parse 800 srcReplayMeta).map
      (fun s => (s.timeline.map (fun e => (e.pitches, e.tickStart)), s.meta.timeSignature)) =
      some ([([some 60], Q.ofInt 0), ([some 62], Q.ofInt 3840), ([some 60], Q.ofInt 7680)],
            (1, 4)) ∧
    Q.ofInt 0 =
      (Q.ofInt (1 - 1)).mul (((Q.ofInt 4).mul ((Q.ofInt 4).div (Q.ofInt 4))).mul TICKS_PER_QUARTER) ∧
    Q.ofInt 7680 =
      (Q.ofInt (2 - 1)).mul (((Q.ofInt 4).mul ((Q.ofInt 4).div (Q.ofInt 4))).mul TICKS_PER_QUARTER) ∧
    Q.ofInt 3840 =
      (Q.ofInt (3 - 1)).mul (((Q.ofInt 1).mul ((Q.ofInt 4).div (Q.ofInt 4))).mul TICKS_PER_QUARTER) :=
  ⟨by decide, by decide, by decide, by decide⟩

/-- Claim C6, counterexample.  With voice v1 holding a whole note
(`"c:1"`, a quoted token whose `:1` part survives the lexer) and voice
v2 holding two quarters, the earliest event ends at 7680 but the
timeline's last event (maximal `tickStart`) ends at 3840; the code sets
`durationTicks` to the latter, not to the maximum `tickEnd`. -/
theorem C6_counterexample_duration_not_max_tickEnd :
    (parse 500 srcLongShort).map
      (fun s => (s.durationTicks, s.timeline.map (fun e => e.tickEnd))) =
      some (Q.ofInt 3840, [Q.ofInt 7680, Q.ofInt 1920, Q.ofInt 3840]) ∧
    ¬ Q.le (Q.ofInt 7680) (Q.ofInt 3840) :=
  ⟨by decide, by decide⟩

/-- Claim C6, amended.  For every compiled score, `durationTicks` equals
the `tickEnd` of the last event of the sorted timeline (the event with
maximal `tickStart`; ties resolved to the latest produced), or 0 when
the timeline is empty.  This can be less than the maximal `tickEnd`
when an early-starting event outlasts every later-starting one. -/
theorem C6_amended_duration_is_last_events_tickEnd :
    ∀ (fuel : Nat) (src : List Char) (score : CompiledScore),
      parse fuel src = some score →
      score.durationTicks =
        match score.timeline.getLast? with
        | some e => e.tickEnd
        | none => Q.ofInt 0 := by
  intro fuel src score h
  unfold parse at h
  rcases Option.map_eq_some'.mp h with ⟨st, hst, h2⟩
  subst h2
  rfl

/-- Witness for the amended C6 at a concrete input (the empty source,
whose timeline is empty and whose durationTicks is 0). -/
theorem C6_amended_witness :
    parse 50 [] = some (finalizeScore (initState [])) ∧
    (finalizeScore (initState [])).durationTicks =
      match (finalizeScore (initState [])).timeline.getLast? with
      | some e => e.tickEnd
      | none => Q.ofInt 0 :=
  ⟨rfl, C6_amended_duration_is_last_events_tickEnd 50 [] (finalizeScore (initState [])) rfl⟩

/-- Claim C7.  For every compiled score, the finalized timeline is
sorted non-decreasing by `tickStart`, and the finalization sort is
stable: for every key, the events with that `tickStart` appear in the
same order as in the pre-sort production list (`parseCore`'s timeline).
The embedding models `Array.prototype.sort` (stable per ES2019) with a
stable insertion sort. -/
theorem C7_finalized_timeline_sorted_and_stable :
    ∀ (fuel : Nat) (src : List Char) (st : ParserSt),
      parseCore fuel src = some st →
      parse fuel src = some (finalizeScore st) ∧
      (finalizeScore st).timeline.Pairwise (fun a b => Q.le a.tickStart b.tickStart) ∧
      ∀ k : Q, (finalizeScore st).timeline.filter (fun e => e.tickStart = k) =
               st.timeline.filter (fun e => e.tickStart = k) := by
  intro fuel src st h
  refine ⟨?_, ?_, ?_⟩
  · unfold parse
    rw [h]
    rfl
  · exact sortTimeline_pairwise st.timeline
  · intro k
    exact sortTimeline_filter st.timeline k

/-- Witness for C7 at a concrete input. -/
theorem C7_witness :
    parse 50 [] = some (finalizeScore (initState [])) ∧
    (finalizeScore (initState [])).timeline.Pairwise
      (fun a b => Q.le a.tickStart b.tickStart) :=
  ⟨(C7_finalized_timeline_sorted_and_stable 50 [] (initState []) rfl).1,
   (C7_finalized_timeline_sorted_and_stable 50 [] (initState []) rfl).2.1⟩

/-- Claim C8, counterexample.  `meta { time: "4/0" }` does not leave the
default `[4,4]` in place: `parseMetaBlock` checks only that numerator
and denominator parse as integers (source line 121), so the zero
denominator is stored and the score's timeSignature becomes `[4,0]`. -/
theorem C8_counterexample_zero_denominator_stored :
    (parse 100 srcTimeZero).map (fun s => s.meta.timeSignature) = some (4, 0) ∧
    ((4, 0) : Int × Int) ≠ (4, 4) :=
  ⟨by decide, by decide⟩

/-- Claim C8, amended.  `meta { time: "3/4" }` sets the timeSignature to
`[3,4]`; a value whose numerator or denominator does not parse as an
integer (such as `"abc"`) leaves the default `[4,4]` in place; but a
parseable zero denominator such as `"4/0"` is stored as `[4,0]`. -/
theorem C8_amended_time_signature_rules :
    (parse 100 srcTime34).map (fun s => s.meta.timeSignature) = some (3, 4) ∧
    (parse 100 srcTimeBad).map (fun s => s.meta.timeSignature) = some (4, 4) ∧
    (parse 100 srcTimeZero).map (fun s => s.meta.timeSignature) = some (4, 0) :=
  ⟨by decide, by decide, by decide⟩

/-- Claim C9.  Whenever a voice is referenced whose cursor does not yet
exist, the cursor is created with octave 4, duration 1.0 and tick 0
(source lines 280-282/288-291); consequently on
`def p measure 1 { p: c }` the first event of the fresh voice resolves
the octave-less `c` in octave 4 (midi 60) and, with its duration
omitted, occupies exactly 1920 ticks. -/
theorem C9_first_voice_reference_creates_default_cursor :
    (∀ (st : ParserSt) (instId voiceId : Tok),
        getCursor st instId voiceId = none →
        getCursor (ensureCursor instId voiceId st) instId voiceId =
          some ⟨4, Q.ofInt 1, Q.ofInt 0⟩) ∧
    (parse 300 srcFirstVoice).map
        (fun s => s.timeline.map (fun e => (e.pitches, e.tickStart, e.tickEnd))) =
      some [([some 60], Q.ofInt 0, Q.ofInt 1920)] := by
  constructor
  · intro st instId voiceId h
    unfold ensureCursor
    rw [h]
    simp [getCursor, setCursor, getA_setA_same]
  · decide

/-- Witness for C9's cursor-creation part at a concrete state. -/
theorem C9_witness :
    getCursor (initState []) ("p".toList) ("v1".toList) = none ∧
    getCursor (ensureCursor ("p".toList) ("v1".toList) (initState []))
        ("p".toList) ("v1".toList) = some ⟨4, Q.ofInt 1, Q.ofInt 0⟩ :=
  ⟨by decide, C9_first_voice_reference_creates_default_cursor.1 _ _ _ (by decide)⟩

/-- Claim C10, counterexample.  The quoted event token
`"a.vol(x).vol(50).z"` carries two `vol` modifiers, the first with the
non-numeric argument `x`, the second with the numeric argument 50.  A
`vol` modifier with a numeric first argument is therefore present, yet
the event's velocity stays 0.8: the source takes only the FIRST
`vol`/`vel` modifier (`attributes.find`, line 401) and ignores the
numeric one behind it, so velocity is not `50/127`. -/
theorem C10_counterexample_first_vol_shadows_numeric :
    (parse 300 srcVolPair).map
      (fun s => s.timeline.map
        (fun e => (e.velocity, e.modifiers.map (fun a => (a.name, a.args))))) =
      some [(⟨4, 5, by omega⟩,
             [("vol".toList, [Sum.inl ("x".toList)]),
              ("vol".toList, [Sum.inr (Q.ofInt 50)]),
              ("z\"".toList, ([] : List (Tok ⊕ Q)))])] ∧
    (⟨4, 5, by omega⟩ : Q) ≠ (Q.ofInt 50).div (Q.ofInt 127) :=
  ⟨by rfl, by decide⟩

/-- Claim C10, amended.  Every NoteEvent's velocity follows the
first-modifier rule: 0.8 unless the FIRST modifier named `vol` or `vel`
has a numeric first argument, in which case that argument divided by
127, with no clamping.  Holds for every event of every compiled
score. -/
theorem C10_amended_velocity_from_first_vol_modifier :
    ∀ (fuel : Nat) (src : List Char) (score : CompiledScore),
      parse fuel src = some score →
      ∀ e ∈ score.timeline, e.velocity = velFromModifiers e.modifiers := by
  intro fuel src score h e he
  unfold parse at h
  rcases Option.map_eq_some'.mp h with ⟨st, hst, h2⟩
  subst h2
  exact parseCore_velOK fuel src st hst e (mem_sortTimeline.mp he)

/-- The single event compiled from `def p measure 1 { p: c }`, used to
witness the amended C10. -/
def evFirstVoice : NoteEvent :=
  ⟨.note, [some 60], Q.ofInt 1, Q.ofInt 0, Q.ofInt 1920, ⟨4, 5, by omega⟩,
   "p".toList, "v1".toList, []⟩

/-- Witness for the amended C10 at a concrete event of a concrete
compilation. -/
theorem C10_amended_witness :
    evFirstVoice.velocity = velFromModifiers evFirstVoice.modifiers :=
  C10_amended_velocity_from_first_vol_modifier 300 srcFirstVoice _ rfl
    evFirstVoice (by decide)
